import Mathlib

/-!
Verification of the radicle-cli patch subsystem (crate `rad-patch`,
file src/patch/src/lib.rs, plus its collaborators in radicle_common and
radicle_terminal).

Strings are modelled as lists of characters (`Str`), commits and object
ids as natural numbers.  Functions of the repository that live in
modules absent from the provided sources (the `radicle_common::patch`
module with `TAG_PREFIX`, `patch::all`, `patch::state` and the decoder,
and `project::tracked`) are modelled from the spec; each such definition
says so in its doc comment.  Everything else is translated directly from
the source.
-/

namespace RadPatch

abbrev Str := List Char

abbrev CommitId := Nat

abbrev Oid := Nat

/-- Modelled from the spec: the constant `patch::TAG_PREFIX` lives in the
`radicle_common::patch` module, which is not among the provided sources.
The spec fixes it as a short ASCII literal ending in a slash and its
scenario names the tag for branch `feature` as `patches/feature`. -/
def TAG_PREFIX : Str := ("patches/").toList

/-- Separator join, mirroring Rust's `slice::join` on strings:
`[a, b].join(sep) = a ++ sep ++ b`, `[].join(sep) = ""`. -/
def joinSep (sep : Str) : List Str → Str
  | [] => []
  | [x] => x
  | x :: y :: xs => x ++ sep ++ joinSep sep (y :: xs)

/-- Tag message built by `create` (src/patch/src/lib.rs:204):
`[title.clone(), description.clone()].join("\n")`. -/
def mkMessage (title description : Str) : Str :=
  joinSep ['\n'] [title, description]

/-- Tag name built by `create_patch` (src/patch/src/lib.rs:264):
`format!("{}{}", patch::TAG_PREFIX, &current_branch)`. -/
def patchTagName (currentBranch : Str) : Str :=
  TAG_PREFIX ++ currentBranch

/-- The codec's encode direction: a proposal's source ref name, title and
description become the pair (tag name, tag message), as produced by
`create` and `create_patch`. -/
def encode (sourceRefName title description : Str) : Str × Str :=
  (patchTagName sourceRefName, mkMessage title description)

inductive CodecError
  | malformedTag
deriving DecidableEq, Repr

/-- Drop a leading marker from a string, returning the rest if the string
starts with the marker and `none` otherwise. -/
def dropMarker : Str → Str → Option Str
  | [], s => some s
  | _ :: _, [] => none
  | c :: cs, d :: ds => if c = d then dropMarker cs ds else none

/-- Split a string at its first newline: the first line and the remainder.
A string without a newline is a single line with empty remainder. -/
def splitFirstLine : Str → Str × Str
  | [] => ([], [])
  | c :: cs =>
    if c = '\n' then ([], cs)
    else
      let p := splitFirstLine cs
      (c :: p.1, p.2)

structure DecodedPatch where
  sourceRefName : Str
  title : Str
  description : Str
deriving DecidableEq, Repr

/-- Modelled from the spec: the decode direction of the codec lives in the
`radicle_common::patch` module, absent from the provided sources.  Spec
section 4.1: decoding fails with `MalformedTag` if the tag name does not
start with the fixed marker, or the tag carries no annotation (fewer than
one line of message); otherwise the source ref name is the tag name with
the marker stripped, the title is the first line of the message, and the
description is the remainder. -/
def decode (tagName : Str) (tagMessage : Option Str) : Except CodecError DecodedPatch :=
  match dropMarker TAG_PREFIX tagName with
  | none => Except.error CodecError.malformedTag
  | some src =>
    match tagMessage with
    | none => Except.error CodecError.malformedTag
    | some msg =>
      if msg.isEmpty then Except.error CodecError.malformedTag
      else
        let p := splitFirstLine msg
        Except.ok ⟨src, p.1, p.2⟩

/-! Command-line options (src/patch/src/lib.rs:34-80).  An argument is
modelled after lexopt's classification of the next token: a long option,
a short option, or a positional value. -/

inductive Arg
  | long (name : Str)
  | short (c : Char)
  | value (s : Str)
deriving DecidableEq, Repr

structure Options where
  list : Bool
  verbose : Bool
  sync : Bool
deriving DecidableEq, Repr

inductive ArgsError
  | help
  | unexpected (a : Arg)
deriving DecidableEq, Repr

/-- `Options::from_args` (src/patch/src/lib.rs:42-79): starts from
`list = false`, `verbose = false`, `sync = true`, inspects at most the
first argument via a single `parser.next()?`, and returns the options
together with an empty leftover vector. -/
def Options.fromArgs : List Arg → Except ArgsError (Options × List Arg)
  | [] => Except.ok (⟨false, false, true⟩, [])
  | arg :: _ =>
    match arg with
    | Arg.long n =>
      if n = ("list").toList then Except.ok (⟨true, false, true⟩, [])
      else if n = ("verbose").toList then Except.ok (⟨false, true, true⟩, [])
      else if n = ("sync").toList then Except.ok (⟨false, false, true⟩, [])
      else if n = ("no-sync").toList then Except.ok (⟨false, false, false⟩, [])
      else if n = ("help").toList then Except.error ArgsError.help
      else Except.error (ArgsError.unexpected (Arg.long n))
    | Arg.short c =>
      if c = 'l' then Except.ok (⟨true, false, true⟩, [])
      else if c = 'v' then Except.ok (⟨false, true, true⟩, [])
      else Except.error (ArgsError.unexpected (Arg.short c))
    | Arg.value s => Except.error (ArgsError.unexpected (Arg.value s))

/-- The arguments matched by a non-wildcard arm of the `match` in
`Options::from_args`; everything else falls into the arm that returns
`arg.unexpected()`. -/
def recognizedArg (a : Arg) : Bool :=
  decide (a = Arg.long (("list").toList) ∨ a = Arg.short 'l' ∨
    a = Arg.long (("verbose").toList) ∨ a = Arg.short 'v' ∨
    a = Arg.long (("sync").toList) ∨ a = Arg.long (("no-sync").toList) ∨
    a = Arg.long (("help").toList))

/-! Patch records and the state classifier.  The classifier
`patch::state` lives in the `radicle_common::patch` module, absent from
the provided sources, so it is modelled from the spec (section 4.2) over
an explicit commit graph. -/

/-- A commit graph, as a list of `(child, parent)` edges.  Commits are
numbered so that every parent carries a smaller number than its child;
such a numbering exists for every git commit graph since it is acyclic. -/
abbrev CommitGraph := List (CommitId × CommitId)

/-- The parents of a commit: the targets of its outgoing edges. -/
def parentsOf (g : CommitGraph) (c : CommitId) : List CommitId :=
  (g.filter (fun e => e.1 == c)).map (fun e => e.2)

/-- Bounded ancestry search: `reach g fuel a b` walks parent edges from
`a` for at most `fuel` steps looking for `b` (reflexive). -/
def reach (g : CommitGraph) : Nat → CommitId → CommitId → Bool
  | 0, a, b => a == b
  | fuel + 1, a, b => a == b || (parentsOf g a).any (fun p => reach g fuel p b)

/-- Modelled from the spec: the storage collaborator's native ancestry
primitive `is_ancestor(candidate, of)` (section 6).  With parent numbers
below child numbers, fuel `tip` bounds every ancestry path from `tip`. -/
def isAncestor (g : CommitGraph) (candidate tip : CommitId) : Bool :=
  reach g tip tip candidate

inductive State
  | Open
  | Merged
deriving DecidableEq, Repr

inductive ClassifyError
  | unresolvedReference
deriving DecidableEq, Repr

/-- A patch record (`patch::Tag` of `radicle_common`), as described by the
spec's data model (section 3). -/
structure Tag where
  id : Str
  peerId : Nat
  peerName : Str
  message : Option Str
  targetCommit : CommitId
deriving DecidableEq, Repr

/-- Modelled from the spec: the classifier (section 4.2).  `Merged` iff the
patch's target commit is an ancestor of (or equal to) the default branch
tip; when the tip is unresolved it fails with `UnresolvedReference`. -/
def classify (g : CommitGraph) (patch : Tag) (defaultBranchTip : Option CommitId) :
    Except ClassifyError State :=
  match defaultBranchTip with
  | none => Except.error ClassifyError.unresolvedReference
  | some tip =>
    Except.ok (if isAncestor g patch.targetCommit tip then State.Merged else State.Open)

/-- Modelled from the spec: the reference implementation recovers from
`UnresolvedReference` by defaulting the patch to `Open` (sections 4.2
and 7). -/
def stateOrOpen (g : CommitGraph) (patch : Tag) (tip : Option CommitId) : State :=
  match classify g patch tip with
  | Except.error _ => State.Open
  | Except.ok s => s

/-- One parent step in the commit graph, as a relation. -/
def ParentStep (g : CommitGraph) (a b : CommitId) : Prop := (a, b) ∈ g

/-- `candidate` is an ancestor of, or equal to, `tip`: `candidate` is
reachable from `tip` along parent edges. -/
def AncestorOrEqual (g : CommitGraph) (candidate tip : CommitId) : Prop :=
  Relation.ReflTransGen (ParentStep g) tip candidate

/-- Well-formedness of the commit numbering: parents precede children. -/
def ParentDecreasing (g : CommitGraph) : Prop := ∀ e ∈ g, e.2 < e.1

/-! The publication pipeline (`create_patch`, src/patch/src/lib.rs:257-304).
The git operations `git::add_tag`, `git::push_tag` and `git::push_branch`
belong to `radicle_common::git`, absent from the provided sources; per the
spec (sections 4.4 and 6) tag creation writes a local annotated tag and the
two pushes only talk to the transport, so their outcomes are supplied by an
environment and only tag creation touches the local repository. -/

/-- The local repository's annotated tags, as (name, message) pairs. -/
structure LocalRepo where
  tags : List (Str × Str)
deriving DecidableEq, Repr

/-- Outcomes of the three external git calls for one pipeline run; errors
carry a message string. -/
structure GitEnv where
  addTag : Except Str Oid
  pushTag : Except Str Str
  pushBranch : Except Str Str

/-- The three observable pipeline steps, in source order. -/
inductive PStep
  | addTag
  | pushTag
  | pushBranch
deriving DecidableEq, Repr

/-- Result of one pipeline run: the returned value, the git operations
attempted in order, and the local repository afterwards. -/
structure PipelineResult where
  result : Except Str Oid
  steps : List PStep
  repo : LocalRepo
deriving Repr

/-- Modelled from the spec: `git::add_tag` creates the annotated tag
locally, pointed at the current branch tip (section 4.4 step 1). -/
def addTagOp (repo : LocalRepo) (env : GitEnv) (message name : Str) :
    Except Str (Oid × LocalRepo) :=
  match env.addTag with
  | Except.error e => Except.error e
  | Except.ok oid => Except.ok (oid, ⟨(name, message) :: repo.tags⟩)

/-- `create_patch` (src/patch/src/lib.rs:257-304): build the tag name from
the fixed marker and the current branch, then add the tag locally, push the
tag, and push the branch, returning early with the failing step's error. -/
def create_patch (repo : LocalRepo) (env : GitEnv) (message currentBranch : Str) :
    PipelineResult :=
  let name := patchTagName currentBranch
  match addTagOp repo env message name with
  | Except.error e => ⟨Except.error e, [PStep.addTag], repo⟩
  | Except.ok (oid, repo1) =>
    match env.pushTag with
    | Except.error e => ⟨Except.error e, [PStep.addTag, PStep.pushTag], repo1⟩
    | Except.ok _ =>
      match env.pushBranch with
      | Except.error e =>
        ⟨Except.error e, [PStep.addTag, PStep.pushTag, PStep.pushBranch], repo1⟩
      | Except.ok _ =>
        ⟨Except.ok oid, [PStep.addTag, PStep.pushTag, PStep.pushBranch], repo1⟩

/-! Discovery (`list_by_state`, src/patch/src/lib.rs:230-254).  The
functions `patch::all` and `project::tracked` are absent from the provided
sources and are modelled from the spec (sections 4.3 and 6): reading one
tracked peer's absent namespace yields zero patches, not an error, while
failure to open the local repository view at all is fatal. -/

/-- The visible store: whether the local repository view opens, the local
peer's patches, and each tracked peer's namespace (`none` when that peer's
namespace cannot be read). -/
structure Storage where
  localViewOk : Bool
  localPatches : List Tag
  peerNamespace : Nat → Option (List Tag)

/-- Modelled from the spec: `patch::all(project, peer, storage)` lists the
patches under one peer's namespace (`none` selects the local peer).  An
unreadable namespace of a tracked peer contributes zero patches; a local
view that cannot be opened is a hard failure. -/
def patchAll (st : Storage) (peer : Option Nat) : Except Str (List Tag) :=
  if st.localViewOk then
    match peer with
    | none => Except.ok st.localPatches
    | some p => Except.ok ((st.peerNamespace p).getD [])
  else Except.error (("cannot open repository").toList)

/-- The peer loop of `list_by_state` (src/patch/src/lib.rs:239-242): for
each tracked peer in order, append that peer's patches. -/
def collectTracked (st : Storage) : List Nat → Except Str (List Tag)
  | [] => Except.ok []
  | p :: ps =>
    match patchAll st (some p) with
    | Except.error e => Except.error e
    | Except.ok theirs =>
      match collectTracked st ps with
      | Except.error e => Except.error e
      | Except.ok rest => Except.ok (theirs ++ rest)

/-- The collection phase of `list_by_state` (src/patch/src/lib.rs:237-242):
the local peer's patches first, then each tracked peer's patches appended
in tracked order. -/
def discover (st : Storage) (tracked : List Nat) : Except Str (List Tag) :=
  match patchAll st none with
  | Except.error e => Except.error e
  | Except.ok mine =>
    match collectTracked st tracked with
    | Except.error e => Except.error e
    | Except.ok rest => Except.ok (mine ++ rest)

/-! Printing (`print`, src/patch/src/lib.rs:307-331).  Terminal formatting
lives in radicle_terminal, outside the provided sources; per the spec
(section 1) rendering is out of scope, so format functions are modelled as
the identity on their text. -/

/-- A two-column table of rows; `push` appends at the end. -/
structure Table where
  rows : List (Str × Str)
deriving DecidableEq, Repr

/-- First line of a message, mirroring `message.lines().next().unwrap_or("")`. -/
def firstLineOf (s : Str) : Str := (splitFirstLine s).1

/-- `print` (src/patch/src/lib.rs:307-331): a patch with no tag message
contributes nothing; otherwise two rows are pushed, the bold title and the
author line with the patch id. -/
def print (localPeerId : Nat) (patch : Tag) (table : Table) : Except Str Table :=
  match patch.message with
  | none => Except.ok table
  | some message =>
    let you := patch.peerId == localPeerId
    let title := firstLineOf message
    let name := patch.id
    let authorInfo :=
      if you then
        [("└── Opened by ").toList ++ patch.peerName, ("you").toList]
      else
        [("└── Opened by ").toList ++ patch.peerName]
    Except.ok ⟨table.rows ++ [(title, []), (joinSep [' '] authorInfo, name)]⟩

/-! Concrete instances used by witnesses. -/

/-- An environment where local tag creation succeeds and the tag push
fails. -/
def envTagPushFails : GitEnv :=
  ⟨Except.ok 7, Except.error (("network down").toList), Except.ok []⟩

/-- A sample patch found under peer 1's namespace. -/
def tagA : Tag := ⟨("a1").toList, 1, ("alice").toList, some (("Add X\nBody").toList), 3⟩

/-- A sample patch found under peer 2's namespace. -/
def tagB : Tag := ⟨("b1").toList, 2, ("bob").toList, some (("Fix Y\n").toList), 4⟩

/-- A sample patch that carries no annotation. -/
def tagNoMsg : Tag := ⟨("c1").toList, 3, ("carol").toList, none, 9⟩

/-- A sample store: the local view opens, the local peer has `tagA`, peer 1
has `tagB`, peer 2 has `tagA` as well, and every other namespace is
unreadable. -/
def stEx : Storage :=
  ⟨true, [tagA], fun p => if p = 1 then some [tagB] else if p = 2 then some [tagA] else none⟩

/-! Helper lemmas. -/

theorem dropMarker_append (p s : Str) : dropMarker p (p ++ s) = some s := by
  induction p with
  | nil => rfl
  | cons c cs ih => simp [dropMarker, ih]

theorem splitFirstLine_append (t d : Str) (h : '\n' ∉ t) :
    splitFirstLine (t ++ '\n' :: d) = (t, d) := by
  induction t with
  | nil => simp [splitFirstLine]
  | cons c cs ih =>
    have hc : ¬ c = '\n' := fun hc => h (hc ▸ List.mem_cons_self c cs)
    have hcs : '\n' ∉ cs := fun hm => h (List.mem_cons_of_mem c hm)
    simp [splitFirstLine, hc, ih hcs]

theorem mkMessage_eq (t d : Str) : mkMessage t d = t ++ '\n' :: d := by
  simp [mkMessage, joinSep]

theorem fromArgs_ok_rest (l : List Arg) (o : Options × List Arg)
    (h : Options.fromArgs l = Except.ok o) : o.2 = [] := by
  cases l with
  | nil =>
    simp only [Options.fromArgs, Except.ok.injEq] at h
    simp [← h]
  | cons a r =>
    cases a with
    | long n =>
      simp only [Options.fromArgs] at h
      repeat' split at h
      all_goals simp_all
      all_goals simp [← h]
    | short c =>
      simp only [Options.fromArgs] at h
      repeat' split at h
      all_goals simp_all
      all_goals simp [← h]
    | value s => simp [Options.fromArgs] at h

theorem mem_parentsOf (g : CommitGraph) (a p : CommitId) :
    p ∈ parentsOf g a ↔ (a, p) ∈ g := by
  simp only [parentsOf, List.mem_map, List.mem_filter, beq_iff_eq]
  constructor
  · rintro ⟨⟨e1, e2⟩, ⟨he, h1⟩, h2⟩
    simp only at h1 h2
    subst h1; subst h2
    exact he
  · intro h
    exact ⟨(a, p), ⟨h, rfl⟩, rfl⟩

theorem reach_refl (g : CommitGraph) (f : Nat) (a : CommitId) : reach g f a a = true := by
  cases f <;> simp [reach]

theorem reach_succ (g : CommitGraph) (f : Nat) (a b : CommitId) :
    reach g (f + 1) a b = (a == b || (parentsOf g a).any (fun p => reach g f p b)) := rfl

theorem reach_succ_of_reach (g : CommitGraph) (f : Nat) :
    ∀ a b, reach g f a b = true → reach g (f + 1) a b = true := by
  induction f with
  | zero =>
    intro a b h
    simp only [reach, beq_iff_eq] at h
    simp [reach, h]
  | succ k ih =>
    intro a b h
    rw [reach_succ] at h ⊢
    simp only [Bool.or_eq_true, beq_iff_eq, List.any_eq_true] at h ⊢
    rcases h with h | ⟨p, hp, hr⟩
    · exact Or.inl h
    · exact Or.inr ⟨p, hp, ih p b hr⟩

theorem reach_mono (g : CommitGraph) {f f2 : Nat} (hle : f ≤ f2) (a b : CommitId)
    (h : reach g f a b = true) : reach g f2 a b = true := by
  induction hle with
  | refl => exact h
  | step _ ih => exact reach_succ_of_reach g _ a b ih

theorem reach_sound (g : CommitGraph) (f : Nat) :
    ∀ a b, reach g f a b = true → Relation.ReflTransGen (ParentStep g) a b := by
  induction f with
  | zero =>
    intro a b h
    simp only [reach, beq_iff_eq] at h
    subst h
    exact Relation.ReflTransGen.refl
  | succ k ih =>
    intro a b h
    simp only [reach, Bool.or_eq_true, beq_iff_eq, List.any_eq_true] at h
    rcases h with h | ⟨p, hp, hr⟩
    · subst h; exact Relation.ReflTransGen.refl
    · exact Relation.ReflTransGen.head ((mem_parentsOf g a p).mp hp) (ih p b hr)

theorem reach_complete (g : CommitGraph) (hg : ParentDecreasing g) {a b : CommitId}
    (h : Relation.ReflTransGen (ParentStep g) a b) :
    ∀ f, a ≤ f → reach g f a b = true := by
  induction h using Relation.ReflTransGen.head_induction_on with
  | refl =>
    intro f _
    exact reach_refl g f b
  | head hstep htail ih =>
    rename_i x c
    intro f hf
    have hca : c < x := hg (x, c) hstep
    cases f with
    | zero => exact absurd (Nat.lt_of_lt_of_le hca hf) (Nat.not_lt_zero c)
    | succ k =>
      rw [reach_succ]
      simp only [Bool.or_eq_true, beq_iff_eq, List.any_eq_true]
      exact Or.inr ⟨c, (mem_parentsOf g x c).mpr hstep,
        ih k (Nat.lt_succ_iff.mp (Nat.lt_of_lt_of_le hca hf))⟩

theorem isAncestor_iff (g : CommitGraph) (hg : ParentDecreasing g) (candidate tip : CommitId) :
    isAncestor g candidate tip = true ↔ AncestorOrEqual g candidate tip := by
  constructor
  · intro h
    exact reach_sound g tip tip candidate h
  · intro h
    exact reach_complete g hg h tip (le_refl tip)

/-! Claim theorems. -/

/-- Claim C2: for every valid triple (source ref name, title, description)
— valid meaning the title is a single line, as the data model defines the
title to be the first line of the message — decoding the encoding yields
the same triple back. -/
theorem decode_encode_roundtrip (r t d : Str) (h : '\n' ∉ t) :
    decode (encode r t d).1 (some (encode r t d).2) =
      Except.ok ⟨r, t, d⟩ := by
  simp [encode, decode, patchTagName, mkMessage_eq, dropMarker_append,
    splitFirstLine_append t d h]

/-- Witness for claim C2 at a concrete triple. -/
theorem decode_encode_roundtrip_witness :
    '\n' ∉ ("Add X").toList ∧
      decode (encode (("feature").toList) (("Add X").toList) []).1
          (some (encode (("feature").toList) (("Add X").toList) []).2) =
        Except.ok ⟨("feature").toList, ("Add X").toList, []⟩ :=
  ⟨by decide, decode_encode_roundtrip (("feature").toList) (("Add X").toList) [] (by decide)⟩

/-- Claim C3: the tag written to the store is named exactly the fixed
marker followed by the source branch name, and the tag message is exactly
the title, a newline, and the description; an empty description still
leaves the trailing newline in place rather than being omitted. -/
theorem tag_encoding_exact (branch title description : Str) :
    patchTagName branch = TAG_PREFIX ++ branch ∧
    mkMessage title description = title ++ '\n' :: description ∧
    mkMessage title [] = title ++ ['\n'] := by
  refine ⟨rfl, mkMessage_eq title description, ?_⟩
  simp [mkMessage_eq]

theorem collectTracked_join (st : Storage) (h : st.localViewOk = true) (l : List Nat) :
    collectTracked st l =
      Except.ok ((l.map (fun p => (st.peerNamespace p).getD [])).flatten) := by
  induction l with
  | nil => simp [collectTracked]
  | cons p ps ih => simp [collectTracked, patchAll, h, ih]

theorem discover_join (st : Storage) (h : st.localViewOk = true) (tracked : List Nat) :
    discover st tracked =
      Except.ok (st.localPatches ++
        (tracked.map (fun p => (st.peerNamespace p).getD [])).flatten) := by
  simp [discover, patchAll, h, collectTracked_join st h]

/-- Claim C1: for every patch and every resolved default-branch tip over a
well-numbered commit graph, the state classifier returns `Merged` iff the
patch's target commit is an ancestor of, or equal to, the default branch
tip, and returns `Open` otherwise; in particular a target commit equal to
the tip classifies as `Merged`. -/
theorem classify_merged_iff_ancestor (g : CommitGraph) (patch : Tag) (tip : CommitId)
    (hg : ParentDecreasing g) :
    (classify g patch (some tip) = Except.ok State.Merged ↔
      AncestorOrEqual g patch.targetCommit tip) ∧
    (classify g patch (some tip) = Except.ok State.Open ↔
      ¬ AncestorOrEqual g patch.targetCommit tip) ∧
    (patch.targetCommit = tip → classify g patch (some tip) = Except.ok State.Merged) := by
  have key := isAncestor_iff g hg patch.targetCommit tip
  cases hb : isAncestor g patch.targetCommit tip with
  | true =>
    have hanc : AncestorOrEqual g patch.targetCommit tip := key.mp hb
    refine ⟨?_, ?_, ?_⟩
    · simp [classify, hb, hanc]
    · simp [classify, hb, hanc]
    · intro _
      simp [classify, hb]
  | false =>
    have hanc : ¬ AncestorOrEqual g patch.targetCommit tip := by
      intro hc
      have ht := key.mpr hc
      rw [ht] at hb
      simp at hb
    refine ⟨?_, ?_, ?_⟩
    · simp [classify, hb, hanc]
    · simp [classify, hb, hanc]
    · intro heq
      exfalso
      apply hanc
      show Relation.ReflTransGen (ParentStep g) tip patch.targetCommit
      rw [heq]

/-- Witness for claim C1: over the two-commit graph where commit 0 is the
parent of commit 1, the patch at commit 0 against tip 1 is `Merged`. -/
theorem classify_merged_iff_ancestor_witness :
    ParentDecreasing [(1, 0)] ∧
      classify [(1, 0)] ⟨[], 0, [], none, 0⟩ (some 1) = Except.ok State.Merged := by
  have hg : ParentDecreasing [(1, 0)] := by
    intro e he
    simp only [List.mem_singleton] at he
    subst he
    exact Nat.zero_lt_one
  refine ⟨hg, ?_⟩
  exact (classify_merged_iff_ancestor [(1, 0)] ⟨[], 0, [], none, 0⟩ 1 hg).1.mpr
    (Relation.ReflTransGen.single (show ((1 : CommitId), (0 : CommitId)) ∈ [((1 : CommitId), (0 : CommitId))] from List.mem_singleton_self _))

/-- Claim C8: when the default branch tip cannot be resolved, classification
fails with `UnresolvedReference`, and the implementation recovers by
treating the patch as `Open` instead of failing the operation. -/
theorem unresolved_tip_defaults_open (g : CommitGraph) (patch : Tag) :
    classify g patch none = Except.error ClassifyError.unresolvedReference ∧
    stateOrOpen g patch none = State.Open :=
  ⟨rfl, rfl⟩

/-- Claim C9: `Options::from_args` examines at most the first argument:
the empty vector yields the defaults (list = false, verbose = false,
sync = true); the result does not depend on anything past the first
argument; an unrecognized first argument is an error; and every success
returns an empty leftover vector. -/
theorem fromArgs_first_arg_only :
    Options.fromArgs [] = Except.ok (⟨false, false, true⟩, []) ∧
    (∀ (a : Arg) (r1 r2 : List Arg),
      Options.fromArgs (a :: r1) = Options.fromArgs (a :: r2)) ∧
    (∀ (a : Arg) (r : List Arg), recognizedArg a = false →
      Options.fromArgs (a :: r) = Except.error (ArgsError.unexpected a)) ∧
    (∀ (l : List Arg) (o : Options × List Arg),
      Options.fromArgs l = Except.ok o → o.2 = []) := by
  refine ⟨rfl, ?_, ?_, fromArgs_ok_rest⟩
  · intro a r1 r2
    cases a <;> rfl
  · intro a r h
    cases a with
    | long n =>
      simp only [recognizedArg, decide_eq_false_iff_not, not_or] at h
      obtain ⟨h1, -, h2, -, h3, h4, h5⟩ := h
      simp only [Arg.long.injEq] at h1 h2 h3 h4 h5
      simp only [Options.fromArgs]
      split_ifs
      rfl
    | short c =>
      simp only [recognizedArg, decide_eq_false_iff_not, not_or] at h
      obtain ⟨-, h1, -, h2, -, -, -⟩ := h
      simp only [Arg.short.injEq] at h1 h2
      simp only [Options.fromArgs]
      split_ifs
      rfl
    | value s => rfl

/-- Witness for claim C9: an unrecognized first argument is rejected, and
whatever follows it is not looked at. -/
theorem fromArgs_first_arg_only_witness :
    recognizedArg (Arg.long (("foo").toList)) = false ∧
      Options.fromArgs [Arg.long (("foo").toList), Arg.long (("list").toList)] =
        Except.error (ArgsError.unexpected (Arg.long (("foo").toList))) :=
  ⟨by decide, fromArgs_first_arg_only.2.2.1 (Arg.long (("foo").toList))
    [Arg.long (("list").toList)] (by decide)⟩

/-- Claim C4: every pipeline run attempts its git operations strictly in
the order tag creation, tag push, branch push — the attempted steps are
always an initial segment of that sequence — and a failing step
short-circuits the rest: a failed tag creation stops before any push, and
a failed tag push stops before the branch push. -/
theorem create_patch_sequential (repo : LocalRepo) (env : GitEnv) (message branch : Str) :
    ((create_patch repo env message branch).steps = [PStep.addTag] ∨
      (create_patch repo env message branch).steps = [PStep.addTag, PStep.pushTag] ∨
      (create_patch repo env message branch).steps =
        [PStep.addTag, PStep.pushTag, PStep.pushBranch]) ∧
    (∀ e, env.addTag = Except.error e →
      (create_patch repo env message branch).steps = [PStep.addTag]) ∧
    (∀ oid e, env.addTag = Except.ok oid → env.pushTag = Except.error e →
      (create_patch repo env message branch).steps = [PStep.addTag, PStep.pushTag]) := by
  refine ⟨?_, ?_, ?_⟩
  · cases hA : env.addTag with
    | error e =>
      left
      simp [create_patch, addTagOp, hA]
    | ok oid =>
      cases hT : env.pushTag with
      | error e =>
        right; left
        simp [create_patch, addTagOp, hA, hT]
      | ok o =>
        cases hB : env.pushBranch with
        | error e =>
          right; right
          simp [create_patch, addTagOp, hA, hT, hB]
        | ok o2 =>
          right; right
          simp [create_patch, addTagOp, hA, hT, hB]
  · intro e hA
    simp [create_patch, addTagOp, hA]
  · intro oid e hA hT
    simp [create_patch, addTagOp, hA, hT]

/-- Witness for claim C4: with a failing tag push, only tag creation and
the tag push are attempted. -/
theorem create_patch_sequential_witness :
    envTagPushFails.addTag = Except.ok 7 ∧
      envTagPushFails.pushTag = Except.error (("network down").toList) ∧
      (create_patch ⟨[]⟩ envTagPushFails [] []).steps = [PStep.addTag, PStep.pushTag] :=
  ⟨rfl, rfl, (create_patch_sequential ⟨[]⟩ envTagPushFails [] []).2.2 7
    (("network down").toList) rfl rfl⟩

/-- Claim C5: when local tag creation succeeds and the tag push fails, the
pipeline returns the push error and the local repository keeps the tag
exactly as created — no rollback happens. -/
theorem tag_push_failure_no_rollback (repo : LocalRepo) (env : GitEnv)
    (message branch : Str) (oid : Oid) (e : Str)
    (hA : env.addTag = Except.ok oid) (hT : env.pushTag = Except.error e) :
    (create_patch repo env message branch).result = Except.error e ∧
    (create_patch repo env message branch).repo =
      ⟨(patchTagName branch, message) :: repo.tags⟩ := by
  simp [create_patch, addTagOp, hA, hT]

/-- Witness for claim C5 on a concrete run. -/
theorem tag_push_failure_no_rollback_witness :
    envTagPushFails.addTag = Except.ok 7 ∧
      envTagPushFails.pushTag = Except.error (("network down").toList) ∧
      (create_patch ⟨[]⟩ envTagPushFails [] (("feature").toList)).result =
        Except.error (("network down").toList) ∧
      (create_patch ⟨[]⟩ envTagPushFails [] (("feature").toList)).repo =
        ⟨[(patchTagName (("feature").toList), [])]⟩ := by
  have h := tag_push_failure_no_rollback ⟨[]⟩ envTagPushFails [] (("feature").toList) 7
    (("network down").toList) rfl rfl
  exact ⟨rfl, rfl, h.1, h.2⟩

/-- Claim C6: an unreadable namespace of one tracked peer does not fail
discovery as a whole: the call still succeeds, that peer contributes zero
patches, and the result is the same as with that peer dropped from the
tracked list. -/
theorem peer_failure_isolated (st : Storage) (p : Nat) (pre post : List Nat)
    (hv : st.localViewOk = true) (hp : st.peerNamespace p = none) :
    (∃ l, discover st (pre ++ p :: post) = Except.ok l) ∧
    discover st (pre ++ p :: post) = discover st (pre ++ post) := by
  rw [discover_join st hv, discover_join st hv]
  refine ⟨⟨_, rfl⟩, ?_⟩
  simp [hp]

/-- Witness for claim C6: peer 5's namespace is unreadable in the sample
store, and discovery over tracked peers 1, 5, 2 equals discovery over
1, 2. -/
theorem peer_failure_isolated_witness :
    stEx.localViewOk = true ∧ stEx.peerNamespace 5 = none ∧
      ((∃ l, discover stEx ([1] ++ 5 :: [2]) = Except.ok l) ∧
        discover stEx ([1] ++ 5 :: [2]) = discover stEx ([1] ++ [2])) :=
  ⟨rfl, rfl, peer_failure_isolated stEx 5 [1] [2] rfl rfl⟩

/-- Claim C7: discovery lists the local peer's patches first and then each
tracked peer's patches in tracked order, concatenated with no
de-duplication across peers. -/
theorem discover_local_first_concat (st : Storage) (tracked : List Nat)
    (h : st.localViewOk = true) :
    discover st tracked =
      Except.ok (st.localPatches ++
        (tracked.map (fun p => (st.peerNamespace p).getD [])).flatten) :=
  discover_join st h tracked

/-- Witness for claim C7 on the sample store: `tagA` appears both locally
and under peer 2, and is listed twice. -/
theorem discover_local_first_concat_witness :
    discover stEx [1, 2] =
      Except.ok (stEx.localPatches ++
        (([1, 2].map (fun p => (stEx.peerNamespace p).getD [])).flatten)) :=
  discover_local_first_concat stEx [1, 2] rfl

/-- Claim C10: a patch whose tag message is absent makes `print` return
success without pushing any row: the table is unchanged. -/
theorem print_no_message_no_row (localPeerId : Nat) (patch : Tag) (table : Table)
    (h : patch.message = none) :
    print localPeerId patch table = Except.ok table := by
  simp [print, h]

/-- Witness for claim C10 on a message-less patch. -/
theorem print_no_message_no_row_witness :
    tagNoMsg.message = none ∧ print 0 tagNoMsg ⟨[]⟩ = Except.ok ⟨[]⟩ :=
  ⟨rfl, print_no_message_no_row 0 tagNoMsg ⟨[]⟩ rfl⟩

end RadPatch
